import Mathlib

/-!
Shallow embedding of the `ccwc` word-count utility (src/lib.rs, src/main.rs).

Strings are modelled as `List Char` (Rust `String` content, one element per
Unicode scalar value).  A `BufRead` reader is modelled as the finite sequence
of outcomes of the primitive read operations a scan performs on it:
each scan function in the source consumes its reader through exactly one
primitive (`read` into a 1024-byte buffer, the `lines()` iterator, or
`read_to_string`), so each scan gets a stream of that primitive's outcomes,
where an outcome is either an I/O error or the data delivered.  A
`Cursor::new(s.as_str())` over an in-memory string is the infallible
instance of each stream, built below from the string.

I/O errors carry an abstract error code (`Nat`).
-/

namespace Ccwc

/-- Abstract I/O error (std::io::Error), identified by an opaque code. -/
abbrev IOErr := Nat

/-- Number of bytes of the UTF-8 encoding of one Unicode scalar value. -/
def utf8Size (c : Char) : Nat :=
  if c.toNat < 0x80 then 1
  else if c.toNat < 0x800 then 2
  else if c.toNat < 0x10000 then 3
  else 4

/-- UTF-8 byte length of a string (Rust `str::len`). -/
def utf8Len (s : List Char) : Nat := (s.map utf8Size).sum

/-- Rust `char::is_whitespace`: the Unicode White_Space property. -/
def rustIsWhitespace (c : Char) : Bool :=
  let n := c.toNat
  (0x09 ≤ n && n ≤ 0x0d) || n = 0x20 || n = 0x85 || n = 0xa0 || n = 0x1680 ||
  (0x2000 ≤ n && n ≤ 0x200a) || n = 0x2028 || n = 0x2029 || n = 0x202f ||
  n = 0x205f || n = 0x3000

/-- Drop a trailing carriage return (used by the `lines()` iterator after it
has removed a terminating line feed). -/
def dropTrailingCR (l : List Char) : List Char :=
  if l.getLast? = some '\x0d' then l.dropLast else l

/-- The items yielded by Rust `BufRead::lines` on an in-memory string:
segments delimited by a line feed, each terminated segment stripped of the
line feed and of a carriage return directly before it; a final unterminated
segment is yielded as is; after a trailing line feed nothing more is
yielded.  `cur` is the reversed prefix of the current segment read so far. -/
def rustLinesAux : List Char → List Char → List (List Char)
  | [], cur => if cur.isEmpty then [] else [cur.reverse]
  | c :: rest, cur =>
      if c = '\n' then dropTrailingCR cur.reverse :: rustLinesAux rest []
      else rustLinesAux rest (c :: cur)

/-- Rust `BufRead::lines` over an in-memory string. -/
def rustLines (s : List Char) : List (List Char) := rustLinesAux s []

/-- Rust `str::split_whitespace` (the accumulator holds the reversed
current word). -/
def splitWsAux : List Char → List Char → List (List Char)
  | [], cur => if cur.isEmpty then [] else [cur.reverse]
  | c :: rest, cur =>
      if rustIsWhitespace c then
        if cur.isEmpty then splitWsAux rest []
        else cur.reverse :: splitWsAux rest []
      else splitWsAux rest (c :: cur)

/-- Rust `str::split_whitespace`: the maximal non-whitespace runs of a
string, in order. -/
def splitWhitespace (s : List Char) : List (List Char) := splitWsAux s []

/-- Outcomes of successive `Read::read` calls into the 1024-byte buffer:
each item is an I/O error or the chunk of bytes delivered.  Once the list
is exhausted, further reads return 0 bytes (end of stream). -/
abbrev ByteReader := List (Except IOErr (List Nat))

/-- Outcomes of successive `lines()` iterator steps: an I/O error or the
line's characters.  The list ends where the iterator returns `None`. -/
abbrev LineStream := List (Except IOErr (List Char))

/-- Outcomes of successive `read_to_string` calls: an I/O error or the
characters delivered.  Once the list is exhausted, further calls read
0 bytes. -/
abbrev ReadAllStream := List (Except IOErr (List Char))

/-- Loop body of `Counter::count_bytes_from_reader` (lib.rs:162-172):
`while let Ok(bytes_read) = reader.read(&mut buffer)` — the loop exits on a
zero-length read, and also exits (keeping the partial total) when a read
returns an error, because the `while let Ok` pattern match fails. -/
def countBytesLoop : ByteReader → Nat → Nat
  | [], acc => acc
  | .ok [] :: _, acc => acc
  | .ok bs :: rest, acc => countBytesLoop rest (acc + bs.length)
  | .error _ :: _, acc => acc

/-- Rust `Counter::count_bytes_from_reader` (lib.rs:162-172). -/
def count_bytes_from_reader (r : ByteReader) : Except IOErr Nat :=
  .ok (countBytesLoop r 0)

/-- Rust `Counter::count_lines_from_reader` (lib.rs:174-176):
`Ok(reader.lines().count())` — every item of the iterator is counted,
whether it is an `Ok` line or an `Err`. -/
def count_lines_from_reader (ls : LineStream) : Except IOErr Nat :=
  .ok ls.length

/-- Rust `Counter::count_words_from_reader` (lib.rs:178-184): sums
`line?.split_whitespace().count()` over the lines, returning the first
error encountered. -/
def count_words_from_reader : LineStream → Except IOErr Nat
  | [] => .ok 0
  | .error e :: _ => .error e
  | .ok l :: rest =>
      match count_words_from_reader rest with
      | .error e => .error e
      | .ok n => .ok ((splitWhitespace l).length + n)

/-- Rust `Counter::count_chars_from_reader` (lib.rs:186-196): repeatedly
`read_to_string`, adding `buffer.chars().count()` while the call reads more
than 0 bytes; a failing call propagates its error via `?`. -/
def count_chars_from_reader : ReadAllStream → Except IOErr Nat
  | [] => .ok 0
  | .error e :: _ => .error e
  | .ok chunk :: rest =>
      if chunk.isEmpty then .ok 0
      else
        match count_chars_from_reader rest with
        | .error e => .error e
        | .ok n => .ok (chunk.length + n)

/-- The UTF-8 bytes of a string, one abstract byte per encoded unit
(only the count per scalar matters to the byte scan, so bytes are
represented by placeholder values). -/
def utf8Bytes : List Char → List Nat
  | [] => []
  | c :: rest => List.replicate (utf8Size c) c.toNat ++ utf8Bytes rest

/-- Accumulate bytes into 1024-byte chunks: `cur` is the reversed chunk
being filled and `k` its remaining capacity; a full chunk is emitted and a
fresh one started. -/
def chunksAux : List Nat → Nat → List Nat → List (List Nat)
  | [], _, cur => if cur.isEmpty then [] else [cur.reverse]
  | b :: rest, 0, cur => cur.reverse :: chunksAux rest 1023 [b]
  | b :: rest, k + 1, cur => chunksAux rest k (b :: cur)

/-- Split a byte list into the successive chunks a `Cursor` delivers to
`read` with a 1024-byte buffer. -/
def chunks1024 (l : List Nat) : List (List Nat) := chunksAux l 1024 []

/-- The `ByteReader` produced by `Cursor::new(s.as_str())`: successful
chunked reads of the UTF-8 bytes. -/
def cursorBytes (s : List Char) : ByteReader :=
  (chunks1024 (utf8Bytes s)).map .ok

/-- The `LineStream` produced by `Cursor::new(s.as_str())`. -/
def cursorLines (s : List Char) : LineStream :=
  (rustLines s).map .ok

/-- The `ReadAllStream` produced by `Cursor::new(s.as_str())`: one
`read_to_string` call delivers the whole remaining content. -/
def cursorChars (s : List Char) : ReadAllStream := [.ok s]

/-- Rust `Counter::count_bytes` after `read_input` returned the string `s`
(lib.rs:131-134). -/
def count_bytes_str (s : List Char) : Except IOErr Nat :=
  count_bytes_from_reader (cursorBytes s)

/-- Rust `Counter::count_lines` after `read_input` returned the string `s`
(lib.rs:136-139). -/
def count_lines_str (s : List Char) : Except IOErr Nat :=
  count_lines_from_reader (cursorLines s)

/-- Rust `Counter::count_words` after `read_input` returned the string `s`
(lib.rs:141-144). -/
def count_words_str (s : List Char) : Except IOErr Nat :=
  count_words_from_reader (cursorLines s)

/-- Rust `Counter::count_chars` after `read_input` returned the string `s`
(lib.rs:146-149). -/
def count_chars_str (s : List Char) : Except IOErr Nat :=
  count_chars_from_reader (cursorChars s)

/-- The `CountType` enum (lib.rs:7-14). -/
inductive CountType
  | ByteCount
  | CharCount
  | WordCount
  | LineCount
  | AllCount
deriving DecidableEq, Repr

/-- A command-line argument, one `String` of `args`. -/
abbrev Arg := List Char

/-- The `Config` struct (lib.rs:16-20). -/
structure Config where
  count_type : CountType
  file_path : Option Arg
deriving DecidableEq, Repr

/-- The two distinct error messages `Config::build` can return. -/
inductive ConfigErr
  | invalidFlag
  | incorrectUsage
deriving DecidableEq, Repr

/-- Rust `str::starts_with('-')`. -/
def startsDash : Arg → Bool
  | [] => false
  | c :: _ => c = '-'

/-- Rust `Config::_parse_type` (lib.rs:67-75): classify by the flag argument's
last character (`arg.chars().last()?`). -/
def Config.parseType (arg : Arg) : Option CountType :=
  match arg.getLast? with
  | none => none
  | some 'c' => some .ByteCount
  | some 'l' => some .LineCount
  | some 'w' => some .WordCount
  | some 'm' => some .CharCount
  | some _ => none

/-- Rust `Config::build` (lib.rs:23-65).  The four `if` cases in source order:
one argument → All/stdin; two arguments not starting with a dash →
All/path; at least three arguments with a dash → parse flag, take
`args[2]` as path (further arguments unused); two arguments with a dash →
parse flag, no path; anything else → usage error. -/
def Config.build : List Arg → Except ConfigErr Config
  | [_] => .ok ⟨.AllCount, none⟩
  | [_, a1] =>
      if startsDash a1 then
        match Config.parseType a1 with
        | some t => .ok ⟨t, none⟩
        | none => .error .invalidFlag
      else .ok ⟨.AllCount, some a1⟩
  | _ :: a1 :: a2 :: _ =>
      if startsDash a1 then
        match Config.parseType a1 with
        | some t => .ok ⟨t, some a2⟩
        | none => .error .invalidFlag
      else .error .incorrectUsage
  | [] => .error .incorrectUsage

/-!
Concurrency model for `Counter::count_all_from_input` (lib.rs:198-219).

The function spawns three threads; each one owns an `Arc` clone of the
shared immutable buffer and runs one scan over a fresh `Cursor` on it.
A thread's execution is a sequence of primitive reads of its own cursor,
each followed by a local accumulator update; the shared buffer is only
ever read.  We model each worker by the list of contributions its
successive steps add to its accumulator (derived from its reader stream
over the shared buffer), and run the three workers interleaved under an
arbitrary scheduler.  The parent joins the handles in the fixed program
order byte, line, word (lib.rs:214-216), so the tuple is assembled only
once every worker has finished, and in that order.
-/

/-- Identifies one of the three spawned workers. -/
inductive WorkerId
  | bytes
  | lines
  | words
deriving DecidableEq, Repr

/-- Local state of one worker: how many of its steps have executed, and
its accumulator. -/
structure WorkerState where
  idx : Nat
  acc : Nat
deriving DecidableEq, Repr

/-- One scheduled step of a worker whose per-step contributions are
`items`: if work remains, consume the next item into the accumulator;
a worker that has finished stays finished. -/
def stepW (items : List Nat) (w : WorkerState) : WorkerState :=
  match items.get? w.idx with
  | some k => ⟨w.idx + 1, w.acc + k⟩
  | none => w

/-- A worker is done when it has consumed all its steps. -/
def doneW (items : List Nat) (w : WorkerState) : Bool :=
  items.length ≤ w.idx

/-- Joint state of the three workers of the All path. -/
structure AllState where
  wb : WorkerState
  wl : WorkerState
  ww : WorkerState
deriving DecidableEq, Repr

/-- Run the three workers under a schedule: at each tick the scheduled
worker executes one step; the others are untouched (they share only the
immutable buffer, so steps commute). -/
def runSched (ib il iw : List Nat) : List WorkerId → AllState → AllState
  | [], st => st
  | t :: rest, st =>
      runSched ib il iw rest
        (match t with
         | .bytes => { st with wb := stepW ib st.wb }
         | .lines => { st with wl := stepW il st.wl }
         | .words => { st with ww := stepW iw st.ww })

/-- Per-step contributions of the byte worker on buffer `s`: the sizes of
the chunks its cursor delivers to `read`. -/
def byteItems (s : List Char) : List Nat :=
  (chunks1024 (utf8Bytes s)).map List.length

/-- Per-step contributions of the line worker on buffer `s`: one count per
item of its `lines()` iterator. -/
def lineItems (s : List Char) : List Nat :=
  (rustLines s).map (fun _ => 1)

/-- Per-step contributions of the word worker on buffer `s`: the
whitespace-split word count of each line. -/
def wordItems (s : List Char) : List Nat :=
  (rustLines s).map (fun l => (splitWhitespace l).length)

/-- Rust `Counter::count_all_from_input` (lib.rs:198-219) under a given
schedule: run the three workers interleaved; once the schedule has let
every worker finish, join the handles in program order and assemble
`(byte_count, line_count, word_count)`.  `none` means the join is still
blocked because some worker has not finished. -/
def count_all_from_input (s : List Char) (sched : List WorkerId) :
    Option (Nat × Nat × Nat) :=
  let st := runSched (byteItems s) (lineItems s) (wordItems s) sched
    ⟨⟨0, 0⟩, ⟨0, 0⟩, ⟨0, 0⟩⟩
  if doneW (byteItems s) st.wb && doneW (lineItems s) st.wl &&
     doneW (wordItems s) st.ww then
    some (st.wb.acc, st.wl.acc, st.ww.acc)
  else none

/-!
Input source model for `Counter::read_input` (lib.rs:151-160).  The source
(a file or standard input) is single-consumption: reading it to a string
delivers its whole remaining content and leaves it empty.  The state also
counts how often the source has been read, which instruments the
"exactly one `InputBuffer` per counting invocation" invariant.
-/

/-- The underlying input source: its remaining content and how many times
it has been read. -/
structure InputState where
  data : List Char
  reads : Nat
deriving DecidableEq, Repr

/-- Rust `Counter::read_input` (lib.rs:151-160): read the whole remaining
content into one fresh buffer, consuming the source. -/
def read_input (st : InputState) : List Char × InputState :=
  (st.data, ⟨[], st.reads + 1⟩)

/-- Rust `Counter::count_all` (lib.rs:125-129): read the input once, wrap the
buffer in an `Arc`, and hand that one buffer to `count_all_from_input`. -/
def count_all (sched : List WorkerId) (st : InputState) :
    Option (Nat × Nat × Nat) × InputState :=
  let (s, st') := read_input st
  (count_all_from_input s sched, st')

/-- What one invocation of `Counter::count` prints (lib.rs:91-123):
the All branch prints lines, words and bytes; the single branches print
one count. -/
inductive CountOutput
  | all (line_count word_count byte_count : Nat)
  | single (n : Nat)
deriving DecidableEq, Repr

/-- Rust `Counter::count` (lib.rs:91-123): dispatch on the mode; every branch
performs its scan through exactly one `read_input`.  `none` stands for a
blocked join (All mode, unfinished schedule) or a scan error. -/
def Counter.count (mode : CountType) (sched : List WorkerId)
    (st : InputState) : Option CountOutput × InputState :=
  match mode with
  | .AllCount =>
      let (r, st') := count_all sched st
      (r.map (fun t => .all t.2.1 t.2.2 t.1), st')
  | .ByteCount =>
      let (s, st') := read_input st
      match count_bytes_str s with
      | .ok n => (some (.single n), st')
      | .error _ => (none, st')
  | .LineCount =>
      let (s, st') := read_input st
      match count_lines_str s with
      | .ok n => (some (.single n), st')
      | .error _ => (none, st')
  | .WordCount =>
      let (s, st') := read_input st
      match count_words_str s with
      | .ok n => (some (.single n), st')
      | .error _ => (none, st')
  | .CharCount =>
      let (s, st') := read_input st
      match count_chars_str s with
      | .ok n => (some (.single n), st')
      | .error _ => (none, st')

/-!
Specification-side definitions, formalising the claims' language so the
code-side functions above can be proved to refine them.
-/

/-- Number of line-feed terminators in a string. -/
def countNL : List Char → Nat
  | [] => 0
  | c :: rest => (if c = '\n' then 1 else 0) + countNL rest

/-- The claim's line count: the number of line-terminator-delimited
segments, a final unterminated segment counting as one line when
non-empty. -/
def lineSegCount (s : List Char) : Nat :=
  countNL s + (if s ≠ [] ∧ s.getLast? ≠ some '\n' then 1 else 0)

/-- Count the maximal non-whitespace runs of a string; `inWord` records
whether the previous character belonged to a run. -/
def wordCountAux : List Char → Bool → Nat
  | [], _ => 0
  | c :: rest, inWord =>
      if rustIsWhitespace c then wordCountAux rest false
      else (if inWord then 0 else 1) + wordCountAux rest true

/-- The claim's word count: the number of maximal non-whitespace runs of
the whole string. -/
def wordRunCount (s : List Char) : Nat := wordCountAux s false

/-!
Lemmas.
-/

lemma splitWsAux_length (l : List Char) :
    ∀ cur, (splitWsAux l cur).length =
      (if cur.isEmpty then 0 else 1) + wordCountAux l (!cur.isEmpty) := by
  induction l with
  | nil =>
      intro cur
      cases cur <;> simp [splitWsAux, wordCountAux]
  | cons c rest ih =>
      intro cur
      by_cases hw : rustIsWhitespace c
      · cases cur with
        | nil => simp [splitWsAux, wordCountAux, hw, ih []]
        | cons x xs =>
            simp [splitWsAux, wordCountAux, hw, ih []]
            omega
      · cases cur with
        | nil => simp [splitWsAux, wordCountAux, hw, ih]
        | cons x xs => simp [splitWsAux, wordCountAux, hw, ih]

lemma splitWhitespace_length (l : List Char) :
    (splitWhitespace l).length = wordRunCount l := by
  simpa [splitWhitespace, wordRunCount] using splitWsAux_length l []

lemma wordCountAux_append_ws (c : Char) (hc : rustIsWhitespace c) :
    ∀ (l : List Char) (b : Bool),
      wordCountAux (l ++ [c]) b = wordCountAux l b := by
  intro l
  induction l with
  | nil => intro b; simp [wordCountAux, hc]
  | cons d rest ih =>
      intro b
      by_cases hd : rustIsWhitespace d <;>
        simp [wordCountAux, hd, ih]

lemma getLast?_eq_append (l : List Char) (c : Char) (h : l.getLast? = some c) :
    l = l.dropLast ++ [c] := by
  induction l with
  | nil => simp at h
  | cons a rest ih =>
      cases rest with
      | nil => simp_all
      | cons b t =>
          have h2 : (b :: t).getLast? = some c := by
            simpa [List.getLast?_cons_cons] using h
          have h3 := ih h2
          have hdl : (a :: b :: t).dropLast = a :: (b :: t).dropLast := rfl
          rw [hdl, List.cons_append]
          exact congrArg (List.cons a) h3

lemma wordCountAux_dropTrailingCR (l : List Char) :
    wordCountAux (dropTrailingCR l) false = wordCountAux l false := by
  by_cases h : l.getLast? = some '\x0d'
  · have h2 : dropTrailingCR l = l.dropLast := by simp [dropTrailingCR, h]
    rw [h2]
    conv_rhs => rw [getLast?_eq_append l '\x0d' h]
    rw [wordCountAux_append_ws '\x0d' (by decide)]
  · simp [dropTrailingCR, h]

lemma wordCountAux_split_ws (c : Char) (hc : rustIsWhitespace c) :
    ∀ (a : List Char) (b : Bool) (d : List Char),
      wordCountAux (a ++ c :: d) b = wordCountAux a b + wordCountAux d false := by
  intro a
  induction a with
  | nil => intro b d; simp [wordCountAux, hc]
  | cons x rest ih =>
      intro b d
      by_cases hx : rustIsWhitespace x
      · simp [wordCountAux, hx, ih]
      · simp [wordCountAux, hx, ih]; omega

lemma rustLines_wordSum (s : List Char) :
    ∀ cur, ((rustLinesAux s cur).map (fun l => wordCountAux l false)).sum =
      wordCountAux (cur.reverse ++ s) false := by
  induction s with
  | nil =>
      intro cur
      cases h : cur.isEmpty <;> simp_all [rustLinesAux, wordCountAux]
  | cons c rest ih =>
      intro cur
      by_cases hc : c = '\n'
      · subst hc
        have hstep : rustLinesAux ('\n' :: rest) cur =
            dropTrailingCR cur.reverse :: rustLinesAux rest [] := by
          simp [rustLinesAux]
        rw [hstep, List.map_cons, List.sum_cons, ih [],
            wordCountAux_dropTrailingCR,
            wordCountAux_split_ws '\n' (by decide) cur.reverse false rest]
        simp
      · simp only [rustLinesAux, if_neg hc, ih (c :: cur)]
        simp [List.append_assoc]

lemma count_words_from_reader_allOk (ls : List (List Char)) :
    count_words_from_reader (ls.map .ok) =
      .ok ((ls.map (fun l => (splitWhitespace l).length)).sum) := by
  induction ls with
  | nil => rfl
  | cons l rest ih => simp [count_words_from_reader, ih]

lemma wordSum_str (s : List Char) :
    ((rustLines s).map (fun l => (splitWhitespace l).length)).sum =
      wordRunCount s := by
  have h1 : ((rustLines s).map (fun l => (splitWhitespace l).length)).sum =
      ((rustLines s).map (fun l => wordCountAux l false)).sum := by
    congr 1
    apply List.map_congr_left
    intro l _
    simpa [wordRunCount] using splitWhitespace_length l
  rw [h1]
  have h2 := rustLines_wordSum s []
  simp only [List.reverse_nil, List.nil_append] at h2
  simp only [rustLines, h2, wordRunCount]

lemma count_words_str_eq (s : List Char) :
    count_words_str s = .ok (wordRunCount s) := by
  rw [count_words_str, cursorLines, count_words_from_reader_allOk, wordSum_str]

lemma wordCountAux_all_ws (s : List Char) (h : ∀ c ∈ s, rustIsWhitespace c = true) :
    ∀ b, wordCountAux s b = 0 := by
  induction s with
  | nil => intro b; rfl
  | cons c rest ih =>
      intro b
      have hc : rustIsWhitespace c = true := h c (by simp)
      simp [wordCountAux, hc]
      exact ih (fun d hd => h d (by simp [hd])) false

lemma rustLinesAux_length (s : List Char) :
    ∀ cur, (rustLinesAux s cur).length =
      countNL s + (if s.getLast? = some '\n' then 0
                   else if s.isEmpty && cur.isEmpty then 0 else 1) := by
  induction s with
  | nil =>
      intro cur
      cases cur <;> simp [rustLinesAux, countNL]
  | cons c rest ih =>
      intro cur
      by_cases hc : c = '\n'
      · subst hc
        cases rest with
        | nil => cases cur <;> simp [rustLinesAux, countNL, dropTrailingCR]
        | cons d t =>
            have hstep : rustLinesAux ('\n' :: d :: t) cur =
                dropTrailingCR cur.reverse :: rustLinesAux (d :: t) [] := by
              simp [rustLinesAux]
            rw [hstep, List.length_cons, ih []]
            simp [countNL, List.getLast?_cons_cons]
            omega
      · cases rest with
        | nil =>
            have hstep : rustLinesAux [c] cur = [(c :: cur).reverse] := by
              simp [rustLinesAux, hc]
            rw [hstep]
            simp [countNL, hc]
        | cons d t =>
            have hstep : rustLinesAux (c :: d :: t) cur =
                rustLinesAux (d :: t) (c :: cur) := by
              simp [rustLinesAux, hc]
            rw [hstep, ih (c :: cur)]
            simp [countNL, hc, List.getLast?_cons_cons]

lemma count_lines_str_eq (s : List Char) :
    count_lines_str s = .ok (lineSegCount s) := by
  rw [count_lines_str, cursorLines, count_lines_from_reader]
  congr 1
  rw [List.length_map, rustLines, rustLinesAux_length s []]
  unfold lineSegCount
  by_cases hnil : s = []
  · subst hnil; simp
  · by_cases hlast : s.getLast? = some '\n'
    · simp [hlast, hnil]
    · have hne : s.isEmpty = false := by
        cases s with
        | nil => exact absurd rfl hnil
        | cons a t => rfl
      simp [hlast, hnil, hne]

lemma lineSegCount_terminated (s : List Char) (h : s.getLast? = some '\n') :
    lineSegCount s = countNL s := by
  simp [lineSegCount, h]

lemma utf8Bytes_length (s : List Char) : (utf8Bytes s).length = utf8Len s := by
  induction s with
  | nil => rfl
  | cons c rest ih => simp [utf8Bytes, utf8Len, ih]

lemma countBytesLoop_ok_ne (bs : List Nat) (h : bs ≠ []) (rest : ByteReader)
    (acc : Nat) :
    countBytesLoop (.ok bs :: rest) acc = countBytesLoop rest (acc + bs.length) := by
  cases bs with
  | nil => exact absurd rfl h
  | cons x xs => rfl

lemma chunksAux_loop (bs : List Nat) :
    ∀ (k : Nat) (cur : List Nat) (acc : Nat), (k = 0 → cur ≠ []) →
      countBytesLoop ((chunksAux bs k cur).map .ok) acc =
        acc + cur.length + bs.length := by
  induction bs with
  | nil =>
      intro k cur acc _
      cases cur with
      | nil => simp [chunksAux, countBytesLoop]
      | cons x xs =>
          have hstep : chunksAux [] k (x :: xs) = [(x :: xs).reverse] := by
            simp [chunksAux]
          rw [hstep, List.map_cons, List.map_nil,
              countBytesLoop_ok_ne _ (by simp) _ _]
          simp [countBytesLoop]
  | cons b rest ih =>
      intro k cur acc hk
      cases k with
      | zero =>
          have hcur : cur ≠ [] := hk rfl
          have hstep : chunksAux (b :: rest) 0 cur =
              cur.reverse :: chunksAux rest 1023 [b] := rfl
          rw [hstep, List.map_cons,
              countBytesLoop_ok_ne _ (by simpa using hcur) _ _,
              ih 1023 [b] _ (fun h => absurd h (by decide))]
          simp
          omega
      | succ k =>
          have hstep : chunksAux (b :: rest) (k + 1) cur =
              chunksAux rest k (b :: cur) := rfl
          rw [hstep, ih k (b :: cur) acc (fun _ => by simp)]
          simp
          omega

lemma count_bytes_str_eq (s : List Char) :
    count_bytes_str s = .ok (utf8Len s) := by
  rw [count_bytes_str, count_bytes_from_reader, cursorBytes, chunks1024,
      chunksAux_loop (utf8Bytes s) 1024 [] 0 (fun h => absurd h (by decide))]
  simp [utf8Bytes_length]

lemma count_chars_str_eq (s : List Char) :
    count_chars_str s = .ok s.length := by
  cases s with
  | nil => rfl
  | cons c rest => simp [count_chars_str, cursorChars, count_chars_from_reader]

lemma chunksAux_sum (bs : List Nat) :
    ∀ k cur, ((chunksAux bs k cur).map List.length).sum =
      cur.length + bs.length := by
  induction bs with
  | nil => intro k cur; cases cur <;> simp [chunksAux]
  | cons b rest ih =>
      intro k cur
      cases k with
      | zero =>
          have hstep : chunksAux (b :: rest) 0 cur =
              cur.reverse :: chunksAux rest 1023 [b] := rfl
          rw [hstep, List.map_cons, List.sum_cons, ih 1023 [b]]
          simp
          omega
      | succ k =>
          have hstep : chunksAux (b :: rest) (k + 1) cur =
              chunksAux rest k (b :: cur) := rfl
          rw [hstep, ih k (b :: cur)]
          simp
          omega

lemma byteItems_sum (s : List Char) : (byteItems s).sum = utf8Len s := by
  rw [byteItems, chunks1024, chunksAux_sum, utf8Bytes_length]
  simp

lemma sum_map_one {α : Type} (l : List α) : (l.map (fun _ => 1)).sum = l.length := by
  induction l with
  | nil => rfl
  | cons a t ih => simp [ih]; omega

lemma lineItems_sum (s : List Char) : (lineItems s).sum = (rustLines s).length := by
  rw [lineItems, sum_map_one]

lemma wordItems_sum (s : List Char) : (wordItems s).sum = wordRunCount s := by
  rw [wordItems, wordSum_str]

lemma get?_drop_eq (l : List Nat) :
    ∀ n k, l.get? n = some k → l.drop n = k :: l.drop (n + 1) := by
  induction l with
  | nil => intro n k h; simp [List.get?] at h
  | cons x rest ih =>
      intro n k h
      cases n with
      | zero =>
          simp [List.get?] at h
          subst h
          simp
      | succ n =>
          have h2 : rest.get? n = some k := by simpa [List.get?] using h
          simpa using ih n k h2

lemma drop_of_len_le (l : List Nat) :
    ∀ n, l.length ≤ n → l.drop n = [] := by
  induction l with
  | nil => intro n _; simp
  | cons x rest ih =>
      intro n h
      cases n with
      | zero => simp at h
      | succ n => simpa using ih n (by simpa using h)

/-- Worker invariant tying the accumulator to the items consumed so far. -/
def invW (items : List Nat) (w : WorkerState) : Prop :=
  w.acc + (items.drop w.idx).sum = items.sum

lemma invW_init (items : List Nat) : invW items ⟨0, 0⟩ := by simp [invW]

lemma invW_step (items : List Nat) (w : WorkerState) (h : invW items w) :
    invW items (stepW items w) := by
  unfold stepW
  cases hg : items.get? w.idx with
  | none => simpa [hg] using h
  | some k =>
      unfold invW at h ⊢
      simp only
      rw [get?_drop_eq items w.idx k hg, List.sum_cons] at h
      omega

lemma invW_done (items : List Nat) (w : WorkerState)
    (hinv : invW items w) (hdone : doneW items w = true) :
    w.acc = items.sum := by
  simp only [doneW, decide_eq_true_eq] at hdone
  have hd : items.drop w.idx = [] := drop_of_len_le items w.idx hdone
  simpa [invW, hd] using hinv

lemma runSched_inv (ib il iw : List Nat) :
    ∀ (sched : List WorkerId) (st : AllState),
      invW ib st.wb → invW il st.wl → invW iw st.ww →
      invW ib (runSched ib il iw sched st).wb ∧
      invW il (runSched ib il iw sched st).wl ∧
      invW iw (runSched ib il iw sched st).ww := by
  intro sched
  induction sched with
  | nil => intro st h1 h2 h3; exact ⟨h1, h2, h3⟩
  | cons t rest ih =>
      intro st h1 h2 h3
      cases t with
      | bytes => exact ih _ (invW_step _ _ h1) h2 h3
      | lines => exact ih _ h1 (invW_step _ _ h2) h3
      | words => exact ih _ h1 h2 (invW_step _ _ h3)

lemma count_all_from_input_eq (s : List Char) (sched : List WorkerId)
    (r : Nat × Nat × Nat) (h : count_all_from_input s sched = some r) :
    r = (utf8Len s, (rustLines s).length, wordRunCount s) := by
  simp only [count_all_from_input] at h
  split at h
  case isTrue hcond =>
      have hall := runSched_inv (byteItems s) (lineItems s) (wordItems s)
        sched ⟨⟨0, 0⟩, ⟨0, 0⟩, ⟨0, 0⟩⟩ (invW_init _) (invW_init _) (invW_init _)
      simp only [Bool.and_eq_true] at hcond
      obtain ⟨⟨hb, hl⟩, hw⟩ := hcond
      have eb := invW_done _ _ hall.1 hb
      have el := invW_done _ _ hall.2.1 hl
      have ew := invW_done _ _ hall.2.2 hw
      have : r = ((byteItems s).sum, (lineItems s).sum, (wordItems s).sum) := by
        cases h
        rw [← eb, ← el, ← ew]
      rw [this, byteItems_sum, lineItems_sum, wordItems_sum]
  case isFalse => cases h

lemma count_lines_str_len (s : List Char) :
    count_lines_str s = .ok (rustLines s).length := by
  simp [count_lines_str, cursorLines, count_lines_from_reader]

/-!
Claim theorems.
-/

/-- Claim C1: for every input string, the All-mode combined count, run under
any thread schedule that lets the join complete, returns exactly the triple
(byte count, line count, word count) that the three single-mode scans
produce independently on the same string, with the field order fixed as
(bytes, lines, words) regardless of worker completion order. -/
theorem claim_C1_all_mode_matches_single_scans (s : List Char)
    (sched : List WorkerId) (r : Nat × Nat × Nat)
    (h : count_all_from_input s sched = some r) :
    count_bytes_str s = .ok r.1 ∧ count_lines_str s = .ok r.2.1 ∧
      count_words_str s = .ok r.2.2 := by
  have he := count_all_from_input_eq s sched r h
  subst he
  exact ⟨count_bytes_str_eq s, count_lines_str_len s, count_words_str_eq s⟩

/-- Witness for C1 at the spec's example, under a scrambled schedule. -/
theorem claim_C1_witness :
    count_bytes_str "Hello, world!\nRust is fun.".toList = .ok 26 ∧
    count_lines_str "Hello, world!\nRust is fun.".toList = .ok 2 ∧
    count_words_str "Hello, world!\nRust is fun.".toList = .ok 5 :=
  claim_C1_all_mode_matches_single_scans "Hello, world!\nRust is fun.".toList
    [.words, .lines, .bytes, .words, .lines] (26, 2, 5) rfl

/-- Claim C2: every counting invocation materializes exactly one input
buffer: each branch of `Counter.count` performs exactly one `read_input`,
and the All path computes its result triple from that single buffer (the
source is left drained, so the workers cannot have re-read it). -/
theorem claim_C2_single_input_read (mode : CountType) (sched : List WorkerId)
    (st : InputState) :
    (Counter.count mode sched st).2.reads = st.reads + 1 ∧
    count_all sched st = (count_all_from_input st.data sched,
      ⟨[], st.reads + 1⟩) := by
  constructor
  · cases mode with
    | AllCount => rfl
    | ByteCount =>
        cases h : count_bytes_str st.data <;>
          simp [Counter.count, read_input, h]
    | LineCount =>
        cases h : count_lines_str st.data <;>
          simp [Counter.count, read_input, h]
    | WordCount =>
        cases h : count_words_str st.data <;>
          simp [Counter.count, read_input, h]
    | CharCount =>
        cases h : count_chars_str st.data <;>
          simp [Counter.count, read_input, h]
  · rfl

/-- Claim C3 is refuted by the code (code bug): the byte scan's
`while let Ok` loop exits on a failed read and returns the partial total as
`Ok`, and the line scan's `lines().count()` counts an `Err` item as a line;
only the word and char scans propagate a mid-scan read error. -/
theorem claim_C3_error_swallowed :
    count_bytes_from_reader [.error 7] = .ok 0 ∧
    count_bytes_from_reader [.ok [1, 2, 3], .error 7] = .ok 3 ∧
    count_lines_from_reader [.error 7] = .ok 1 ∧
    count_words_from_reader [.ok ['a'], .error 7] = .error 7 ∧
    count_chars_from_reader [.error 7] = .error 7 :=
  ⟨rfl, rfl, rfl, rfl, rfl⟩

/-- Claim C4: the line count of any string is the number of
line-terminator-delimited segments, a final unterminated segment counting
as one line when non-empty; the spec's example yields 3 and the empty
string yields 0. -/
theorem claim_C4_line_count (s : List Char) :
    count_lines_str s = .ok (lineSegCount s) ∧
    count_lines_str "Line one\nLine two\nLine three".toList = .ok 3 ∧
    count_lines_str [] = .ok 0 :=
  ⟨count_lines_str_eq s, rfl, rfl⟩

/-- Claim C5: the word count of any string is the number of maximal
non-whitespace runs of the whole string (so line boundaries neither drop
nor double-count words), a whitespace-only string yields 0, and the spec's
example yields 5. -/
theorem claim_C5_word_count (s t : List Char)
    (ht : ∀ c ∈ t, rustIsWhitespace c = true) :
    count_words_str s = .ok (wordRunCount s) ∧
    count_words_str t = .ok 0 ∧
    count_words_str "Hello world, how are you?".toList = .ok 5 := by
  have h0 : wordRunCount t = 0 := wordCountAux_all_ws t ht false
  exact ⟨count_words_str_eq s, by rw [count_words_str_eq t, h0], rfl⟩

/-- Witness for C5 at a whitespace-only input. -/
theorem claim_C5_witness : count_words_str [' ', '\t', '\x0a'] = .ok 0 :=
  (claim_C5_word_count [] [' ', '\t', '\x0a'] (by decide)).2.1

/-- Claim C6: the char count of any string is its number of Unicode scalar
values, and on the spec's example it is 9 while the byte length is 12. -/
theorem claim_C6_char_count (s : List Char) :
    count_chars_str s = .ok s.length ∧
    count_chars_str "Hello, 🌍!".toList = .ok 9 ∧
    utf8Len "Hello, 🌍!".toList = 12 ∧
    ("Hello, 🌍!".toList).length ≠ utf8Len "Hello, 🌍!".toList :=
  ⟨count_chars_str_eq s, rfl, by decide, by decide⟩

/-- Claim C7: the byte count of any string is its UTF-8 byte length, the
byte-scan loop terminates as soon as a read returns zero bytes, and the
empty input yields 0 for all four scans. -/
theorem claim_C7_byte_count (s : List Char) (r : ByteReader) (acc : Nat) :
    count_bytes_str s = .ok (utf8Len s) ∧
    countBytesLoop (.ok [] :: r) acc = acc ∧
    count_bytes_str [] = .ok 0 ∧ count_lines_str [] = .ok 0 ∧
    count_words_str [] = .ok 0 ∧ count_chars_str [] = .ok 0 :=
  ⟨count_bytes_str_eq s, rfl, rfl, rfl, rfl, rfl⟩

/-- Claim C8: `Config::build` maps the flags `-c`, `-l`, `-w`, `-m` to the
modes Bytes, Lines, Words, Chars (with the following argument as path),
maps absence of a flag to All mode (the single argument, if present, being
the path), treats an absent path as standard input (`file_path = none`),
and rejects an unrecognized flag such as `-z`. -/
theorem claim_C8_config_build (a0 p : Arg) (hp : startsDash p = false) :
    Config.build [a0, ['-', 'c'], p] = .ok ⟨.ByteCount, some p⟩ ∧
    Config.build [a0, ['-', 'l'], p] = .ok ⟨.LineCount, some p⟩ ∧
    Config.build [a0, ['-', 'w'], p] = .ok ⟨.WordCount, some p⟩ ∧
    Config.build [a0, ['-', 'm'], p] = .ok ⟨.CharCount, some p⟩ ∧
    Config.build [a0] = .ok ⟨.AllCount, none⟩ ∧
    Config.build [a0, p] = .ok ⟨.AllCount, some p⟩ ∧
    Config.build [a0, ['-', 'c']] = .ok ⟨.ByteCount, none⟩ ∧
    Config.build [a0, ['-', 'l']] = .ok ⟨.LineCount, none⟩ ∧
    Config.build [a0, ['-', 'w']] = .ok ⟨.WordCount, none⟩ ∧
    Config.build [a0, ['-', 'm']] = .ok ⟨.CharCount, none⟩ ∧
    Config.build [a0, ['-', 'z'], p] = .error .invalidFlag ∧
    Config.build [a0, ['-', 'z']] = .error .invalidFlag := by
  refine ⟨rfl, rfl, rfl, rfl, rfl, ?_, rfl, rfl, rfl, rfl, rfl, rfl⟩
  simp [Config.build, hp]

/-- Witness for C8 at the spec's pathless-invocation example. -/
theorem claim_C8_witness :
    Config.build ["prog".toList, "test.txt".toList] =
      .ok ⟨.AllCount, some "test.txt".toList⟩ :=
  (claim_C8_config_build "prog".toList "test.txt".toList rfl).2.2.2.2.2.1

lemma parseType_match_cases (a : Arg) (pth : Option Arg) :
    (match Config.parseType a with
     | some t => (Except.ok ⟨t, pth⟩ : Except ConfigErr Config)
     | none => .error .invalidFlag) =
      match a.getLast? with
      | some 'c' => .ok ⟨.ByteCount, pth⟩
      | some 'l' => .ok ⟨.LineCount, pth⟩
      | some 'w' => .ok ⟨.WordCount, pth⟩
      | some 'm' => .ok ⟨.CharCount, pth⟩
      | _ => .error .invalidFlag := by
  unfold Config.parseType
  rcases hga : a.getLast? with _ | c
  · rfl
  · by_cases h1 : c = 'c'
    · subst h1; rfl
    by_cases h2 : c = 'l'
    · subst h2; rfl
    by_cases h3 : c = 'w'
    · subst h3; rfl
    by_cases h4 : c = 'm'
    · subst h4; rfl
    simp [h1, h2, h3, h4]

/-- Claim C9: whenever the second argument starts with a dash — with a path
(three or more arguments) or flag-only (two arguments) — `Config::build`
classifies it solely by its last character ('c', 'l', 'w' or 'm' succeed,
anything else is an invalid flag), so `-xc` is accepted as Bytes while `-`
alone is rejected; with three or more arguments the third is the path and
any further arguments are ignored. -/
theorem claim_C9_flag_last_char (a0 a p r1 : Arg) (rest : List Arg)
    (h : startsDash a = true) :
    (Config.build (a0 :: a :: p :: rest) =
      match a.getLast? with
      | some 'c' => .ok ⟨.ByteCount, some p⟩
      | some 'l' => .ok ⟨.LineCount, some p⟩
      | some 'w' => .ok ⟨.WordCount, some p⟩
      | some 'm' => .ok ⟨.CharCount, some p⟩
      | _ => .error .invalidFlag) ∧
    (Config.build [a0, a] =
      match a.getLast? with
      | some 'c' => .ok ⟨.ByteCount, none⟩
      | some 'l' => .ok ⟨.LineCount, none⟩
      | some 'w' => .ok ⟨.WordCount, none⟩
      | some 'm' => .ok ⟨.CharCount, none⟩
      | _ => .error .invalidFlag) ∧
    Config.build (a0 :: a :: p :: r1 :: rest) = Config.build [a0, a, p] ∧
    Config.build [a0, ['-', 'x', 'c'], p] = .ok ⟨.ByteCount, some p⟩ ∧
    Config.build [a0, ['-', 'x', 'c']] = .ok ⟨.ByteCount, none⟩ ∧
    Config.build [a0, ['-']] = .error .invalidFlag := by
  refine ⟨?_, ?_, ?_, rfl, rfl, rfl⟩
  · have hb : Config.build (a0 :: a :: p :: rest) =
        (match Config.parseType a with
         | some t => .ok ⟨t, some p⟩
         | none => .error .invalidFlag) := by
      simp [Config.build, h]
    rw [hb, parseType_match_cases]
  · have hb : Config.build [a0, a] =
        (match Config.parseType a with
         | some t => .ok ⟨t, none⟩
         | none => .error .invalidFlag) := by
      simp [Config.build, h]
    rw [hb, parseType_match_cases]
  · simp [Config.build]

/-- Witness for C9: a multi-character dashed flag classified by its last
character, with a path and an ignored extra argument, and flag-only. -/
theorem claim_C9_witness :
    Config.build [['p'], ['-', 'q', 'l'], ['f'], ['g']] =
      .ok ⟨.LineCount, some ['f']⟩ ∧
    Config.build [['p'], ['-', 'x', 'w']] = .ok ⟨.WordCount, none⟩ :=
  ⟨(claim_C9_flag_last_char ['p'] ['-', 'q', 'l'] ['f'] ['x'] [['g']] rfl).1,
   (claim_C9_flag_last_char ['p'] ['-', 'x', 'w'] ['f'] ['x'] [] rfl).2.1⟩

/-- Claim C10: for a string ending in a line terminator the line count is
the number of terminator occurrences (the empty segment after the final
terminator is not counted, while an empty segment before a terminator is),
with the concrete values for "\n", "a\n", "\n\n" and "". -/
theorem claim_C10_trailing_terminator (s : List Char)
    (h : s.getLast? = some '\n') :
    count_lines_str s = .ok (countNL s) ∧
    count_lines_str ['\n'] = .ok 1 ∧
    count_lines_str ['a', '\n'] = .ok 1 ∧
    count_lines_str ['\n', '\n'] = .ok 2 ∧
    count_lines_str [] = .ok 0 := by
  refine ⟨?_, rfl, rfl, rfl, rfl⟩
  rw [count_lines_str_eq s, lineSegCount_terminated s h]

/-- Witness for C10 at a concrete terminated string. -/
theorem claim_C10_witness :
    count_lines_str ['a', 'b', '\n'] = .ok (countNL ['a', 'b', '\n']) :=
  (claim_C10_trailing_terminator ['a', 'b', '\n'] rfl).1

end Ccwc

